import Mathlib

/-!
# traefik-http-merge: the merge shim, embedded and verified

Source: `src/traefik-merge.go` (`fetchJSON`, `deepMerge`, `handler`).
-/

namespace TraefikMerge

/-! ## Go maps with string keys

A Go `map[string]T` is an unordered finite map.  It is represented by its
entries listed by strictly increasing key, so that two maps with the same
entries are the same list.  `Map.get?` is the read `m[k]` (with its `ok`
flag as the `Option`), `Map.set` is the assignment `m[k] = v`. -/

/-- Lexicographic comparison of two lists of code points. -/
def ltCodes : List Nat → List Nat → Bool
  | [], [] => false
  | [], _ :: _ => true
  | _ :: _, [] => false
  | x :: xs, y :: ys => decide (x < y) || (decide (x = y) && ltCodes xs ys)

/-- The strict order on keys under which the entries of a map are listed. -/
def keyLt (a b : String) : Bool := ltCodes (a.data.map Char.toNat) (b.data.map Char.toNat)

/-- The read `v, ok := m[k]`. -/
def Map.get? {α : Type} (k : String) : List (String × α) → Option α
  | [] => none
  | (k', v) :: rest => if k = k' then some v else Map.get? k rest

/-- The assignment `m[k] = v`: replaces the entry of `k`, or adds one. -/
def Map.set {α : Type} (k : String) (v : α) : List (String × α) → List (String × α)
  | [] => [(k, v)]
  | (k', v') :: rest =>
    if keyLt k k' then (k, v) :: (k', v') :: rest
    else if k = k' then (k, v) :: rest
    else (k', v') :: Map.set k v rest

/-- The keys of a map. -/
def Map.keys {α : Type} (m : List (String × α)) : List String := m.map Prod.fst

/-- The representation invariant of a map: keys strictly increasing (hence unique). -/
def Map.ordered {α : Type} : List (String × α) → Bool
  | [] => true
  | [_] => true
  | (k, _) :: (k', v') :: rest => keyLt k k' && Map.ordered ((k', v') :: rest)

/-! ## JSON values

What `encoding/json` stores in an `interface{}`: `nil`, `bool`, `float64`,
`string`, `[]interface{}`, `map[string]interface{}`.  A finite `float64` is a
rational number, and `num q` stands for the `float64` equal to `q`; the merge
never inspects a scalar. -/

/-- A decoded JSON value. -/
inductive Value where
  | null : Value
  | bool (b : Bool) : Value
  | num (q : ℚ) : Value
  | str (s : String) : Value
  | arr (xs : List Value) : Value
  | obj (kvs : List (String × Value)) : Value

/-- A non-nil `map[string]interface{}`. -/
abbrev Obj := List (String × Value)

mutual
/-- The loop of `deepMerge(dst, src)`, visiting the entries of `src` in the order given. -/
def deepMerge (dst : Obj) : Obj → Obj
  | [] => dst
  | (k, v) :: rest => deepMerge (mergeEntry dst k v) rest
/-- One iteration of the loop of `deepMerge`, for the entry `key, val` of `src`. -/
def mergeEntry (dst : Obj) (key : String) (val : Value) : Obj :=
  match Map.get? key dst with
  | some (.obj mapA) =>
    match val with
    | .obj mapB => Map.set key (.obj (deepMerge mapA mapB)) dst
    | _ => Map.set key val dst
  | some (.arr arrA) =>
    match val with
    | .arr arrB => Map.set key (.arr (arrA ++ arrB)) dst
    | _ => Map.set key val dst
  | _ => Map.set key val dst
end

/-- The value one iteration of the loop stores under `key`, from the existing
entry of `dst` (if any) and the value `val` of `src`. -/
def mergeValue : Option Value → Value → Value
  | some (.obj mapA), .obj mapB => .obj (deepMerge mapA mapB)
  | some (.arr arrA), .arr arrB => .arr (arrA ++ arrB)
  | _, val => val

/-- Follows a path of keys through nested objects: `m[k₁][k₂]...`, as an object. -/
def descend : List String → Obj → Option Obj
  | [], m => some m
  | k :: path, m =>
    match Map.get? k m with
    | some (.obj inner) => descend path inner
    | _ => none

/-- The type assertion `v.(map[string]interface{})` succeeds. -/
def Value.isObj : Value → Bool
  | .obj _ => true
  | _ => false

/-- The type assertion `v.([]interface{})` succeeds. -/
def Value.isArr : Value → Bool
  | .arr _ => true
  | _ => false

mutual
/-- Every map inside the value is listed by strictly increasing key. -/
def Value.wf : Value → Bool
  | .arr xs => wfList xs
  | .obj kvs => Map.ordered kvs && wfEntries kvs
  | _ => true
/-- Every element of an array is well formed. -/
def wfList : List Value → Bool
  | [] => true
  | x :: xs => Value.wf x && wfList xs
/-- Every value of a map is well formed. -/
def wfEntries : List (String × Value) → Bool
  | [] => true
  | (_, v) :: rest => Value.wf v && wfEntries rest
end

/-! ## The `range` loop of `deepMerge`, in any visiting order

Go visits the entries of `src` in an unspecified order, at every nesting
level.  `MergeRun dst order out` says that the loop body, run from `dst` over
the entries `order` one after the other, ends with `out`, each nested call
being free to visit its own `src` in any order. -/

/-- One execution of the loop of `deepMerge` along a visiting order. -/
inductive MergeRun : Obj → List (String × Value) → Obj → Prop where
  | done (dst : Obj) : MergeRun dst [] dst
  | recurse {dst : Obj} {key : String} {mapA mapB order merged : Obj}
      {rest : List (String × Value)} {out : Obj} :
      Map.get? key dst = some (.obj mapA) → order.Perm mapB → MergeRun mapA order merged →
      MergeRun (Map.set key (.obj merged) dst) rest out →
      MergeRun dst ((key, .obj mapB) :: rest) out
  | append {dst : Obj} {key : String} {arrA arrB : List Value}
      {rest : List (String × Value)} {out : Obj} :
      Map.get? key dst = some (.arr arrA) →
      MergeRun (Map.set key (.arr (arrA ++ arrB)) dst) rest out →
      MergeRun dst ((key, .arr arrB) :: rest) out
  | assign {dst : Obj} {key : String} {val : Value}
      {rest : List (String × Value)} {out : Obj} :
      (∀ mapA mapB, ¬ (Map.get? key dst = some (.obj mapA) ∧ val = .obj mapB)) →
      (∀ arrA arrB, ¬ (Map.get? key dst = some (.arr arrA) ∧ val = .arr arrB)) →
      MergeRun (Map.set key val dst) rest out →
      MergeRun dst ((key, val) :: rest) out

/-- The call `deepMerge(dst, src)` can return `out`: some visiting order of `src` ends with it. -/
def DeepMergeReturns (dst src out : Obj) : Prop :=
  ∃ order : List (String × Value), order.Perm src ∧ MergeRun dst order out

/-! ## Nil maps

A variable of type `map[string]interface{}` is either `nil` or a map.  Reading
a nil map and ranging over it behave as for the empty map; assigning to an
entry of a nil map panics.  A map stored inside a decoded JSON value is never
nil, so only the two arguments of the outermost call can be. -/

/-- A Go variable of type `map[string]interface{}`: `none` is the nil map. -/
abbrev GoMap := Option Obj

/-- The call `deepMerge(dst, src)` on Go variables, either of which may be nil.
With `src` nil or empty the loop body never runs and `dst` is returned as it is;
with `dst` nil the first iteration finds no existing entry and panics at `dst[key] = val`. -/
def deepMergeCall : GoMap → GoMap → Except String GoMap
  | dst, none => .ok dst
  | none, some [] => .ok none
  | none, some (_ :: _) => .error "assignment to entry in nil map"
  | some dst, some src => .ok (some (deepMerge dst src))

/-! ## HTTP data -/

/-- A byte sequence. -/
abbrev Bytes := List Nat

/-- A Go `http.Header`, a `map[string][]string`; keys are canonical header names. -/
abbrev Header := List (String × List String)

/-- The values stored under a header name: `h[k]`, nil when absent. -/
def Header.values (h : Header) (k : String) : List String := (Map.get? k h).getD []

/-- The method `h.Add(k, v)`: `h[k] = append(h[k], v)`. -/
def Header.add (k v : String) (h : Header) : Header := Map.set k (Header.values h k ++ [v]) h

/-- The method `h.Set(k, v)`: `h[k] = []string{v}`. -/
def Header.set (k v : String) (h : Header) : Header := Map.set k [v] h

/-- The loop `for k, vv := range src { for _, v := range vv { dst.Add(k, v) } }`. -/
def copyHeader (dst : Header) : Header → Header
  | [] => dst
  | (k, vv) :: rest => copyHeader (vv.foldl (fun h v => Header.add k v h) dst) rest

/-- The bytes of a backend's body, read as JSON text: not valid JSON; JSON text
holding a number too large for a `float64`; or JSON text whose numbers all fit,
with its value, every number being the `float64` it decodes to (the nearest one). -/
inductive Payload where
  | notJSON : Payload
  | numberOutOfRange : Payload
  | json (v : Value) : Payload

/-- What `client.Get(url)` followed by `io.ReadAll(resp.Body)` yields. -/
inductive Fetched where
  | getError (err : String) : Fetched
  | readError (err : String) : Fetched
  | body (b : Payload) : Fetched

/-- The inbound request, as far as `handler` reads it. -/
structure Request where
  method : String
  header : Header
  body : Bytes

/-- The outbound request that `handler` builds and passes to `client.Do`. -/
structure ProxyRequest where
  method : String
  url : String
  header : Header
  body : Bytes

/-- An HTTP response as a Go `*http.Response`: status code, header fields and
the bytes that reading its body yields. -/
structure Answer where
  statusCode : Nat
  header : Header
  body : Bytes

/-- A call of `client.Do(proxyReq)` that returns a response.  The default
client sends the request to the secondary endpoint (adding `User-Agent` and
`Accept-Encoding: gzip` when the request has none, and the framing); when the
secondary answers 301, 302 or 303 with a `Location`, it sends a GET without the
body there and goes on from that response; and it undoes the gzip compression
it asked for.  So the response it returns need not be the one the secondary
endpoint sent.  It returns final responses only (never a status from 100 to 199
other than 101). -/
structure ClientResult where
  /-- The response of the secondary endpoint itself to the request. -/
  secondary : Answer
  /-- The response that `client.Do` returns to `handler`. -/
  returned : Answer

/-- A piece of a response body: bytes written as they are, a line of text, or
the JSON text that `Encode` writes for a document. -/
inductive Body where
  | raw (b : Bytes) : Body
  | line (text : String) : Body
  | json (doc : GoMap) : Body

/-- The response as `handler` put it on its `http.ResponseWriter`: the status
and the header fields at the moment the status was written, and the pieces of
body written since.  `complete` is false when the connection to the caller
failed during the last piece: the caller then has only a part of `body`.  What
`net/http` adds of its own on the wire (the framing, `Date`, a `Content-Type`
found by sniffing when none is set) is not part of it. -/
structure Response where
  status : Nat
  header : Header
  body : List Body
  complete : Bool

/-- The `http.ResponseWriter` of one request: the map `w.Header()`, and what has
been sent, `none` as long as no status has been written. -/
structure ResponseWriter where
  header : Header
  sent : Option Response

/-- The method `w.WriteHeader(code)`: ignored once a status has been written;
otherwise it panics on a code below 100 or above 999, and else writes the status
with the header fields as they are now. -/
def ResponseWriter.writeHeader (code : Nat) (w : ResponseWriter) : Except String ResponseWriter :=
  match w.sent with
  | some _ => .ok w
  | none =>
    if code < 100 ∨ 999 < code then .error "invalid WriteHeader code"
    else .ok { w with sent := some { status := code, header := w.header, body := [], complete := true } }

/-- The method `w.Write(piece)`, with whether it returned an error.  It writes
status 200 first if no status has been written.  `fails` says that the connection
to the caller fails during this write; after a failed write nothing more is taken. -/
def ResponseWriter.write (piece : Body) (fails : Bool) (w : ResponseWriter) :
    ResponseWriter × Bool :=
  match w.sent with
  | none =>
    ({ w with sent := some { status := 200, header := w.header, body := [piece],
                             complete := !fails } }, fails)
  | some r =>
    if r.complete then
      ({ w with sent := some { r with body := r.body ++ [piece], complete := !fails } }, fails)
    else (w, true)

/-- What has been sent when `handler` returns; status 200 and no body if it wrote nothing. -/
def ResponseWriter.finish (w : ResponseWriter) : Response :=
  match w.sent with
  | some r => r
  | none => { status := 200, header := w.header, body := [], complete := true }

/-- How a call of `handler` ends: it returns, having sent a response, or it panics. -/
inductive Outcome where
  | response (r : Response) : Outcome
  | panicked (msg : String) : Outcome

/-- A call of `handler` into the HTTP client.  The client may send more than
one request over the network for one call (it follows redirects). -/
inductive Call where
  | get (url : String) : Call
  | clientDo (req : ProxyRequest) : Call

/-- A call of `handler`: its calls into the HTTP client, in order, and how it ended. -/
structure Run where
  calls : List Call
  outcome : Outcome

/-- The two configured endpoints and the library calls `handler` relies on. -/
structure World where
  primaryEndpoint : String
  secondaryEndpoint : String
  /-- The call `client.Get(url)` followed by `io.ReadAll`. -/
  get : String → Fetched
  /-- Whether the connection to the caller fails while this piece of body is written. -/
  writeFails : Body → Bool
  /-- The error of `http.NewRequest(method, url, body)`, if any. -/
  newRequestError : String → String → Option String
  /-- The call `client.Do(proxyReq)`. -/
  clientDo : ProxyRequest → Except String ClientResult

/-- The call `json.Unmarshal(body, &data)` with `data` a nil `map[string]interface{}`:
a JSON object is stored as a map; JSON `null` leaves `data` nil and is no error;
any other JSON value, a number too large for a `float64` anywhere in the text,
and a body that is not JSON, is an error. -/
def unmarshal : Payload → Except String GoMap
  | .notJSON => .error "invalid JSON"
  | .numberOutOfRange => .error "cannot unmarshal number into Go value of type float64"
  | .json (.obj m) => .ok (some m)
  | .json .null => .ok none
  | .json _ => .error "cannot unmarshal into Go value of map type"

/-- The function `fetchJSON(url)`. -/
def fetchJSON (w : World) (url : String) : GoMap :=
  match w.get url with
  | .getError _ => some []
  | .readError _ => some []
  | .body body =>
    match unmarshal body with
    | .error _ => some []
    | .ok data => data

/-- One of the three error branches of `fetchJSON(url)` is taken. -/
def fetchFailed (w : World) (url : String) : Bool :=
  match w.get url with
  | .getError _ => true
  | .readError _ => true
  | .body body =>
    match unmarshal body with
    | .error _ => true
    | .ok _ => false

/-- The call `http.Error(w, msg, code)`: it sets two header fields (and deletes
`Content-Length`, which `handler` never sets), calls `w.WriteHeader(code)` and
writes `msg` as a line. -/
def httpError (world : World) (w : ResponseWriter) (msg : String) (code : Nat) :
    Except String ResponseWriter :=
  let h1 := Header.set "Content-Type" "text/plain; charset=utf-8" w.header
  let h2 := Header.set "X-Content-Type-Options" "nosniff" h1
  let w1 : ResponseWriter := { w with header := h2 }
  match w1.writeHeader code with
  | .error e => .error e
  | .ok w2 => .ok (w2.write (.line msg) (world.writeFails (.line msg))).1

/-- How `handler` ends on a panic or on its return with the writer as it is then. -/
def Outcome.ofWriter : Except String ResponseWriter → Outcome
  | .error msg => .panicked msg
  | .ok w => .response w.finish

/-- The inbound request as `handler` passes it to `client.Do`. -/
def proxyRequest (w : World) (r : Request) : ProxyRequest :=
  { method := r.method, url := w.secondaryEndpoint,
    header := copyHeader [] r.header, body := r.body }

/-- The function `handler(w, r)`.  The call `Encode(merged)` writes the JSON text
of `merged` with one `Write`; marshalling a decoded document cannot fail, so its
error is the error of that `Write`.  The call `io.Copy(w, resp.Body)` writes the
body of the response; its error is only logged. -/
def handler (w : World) (r : Request) : Run :=
  if r.method = "GET" then
    let data1 := fetchJSON w w.primaryEndpoint
    let data2 := fetchJSON w w.secondaryEndpoint
    let calls := [Call.get w.primaryEndpoint, Call.get w.secondaryEndpoint]
    match deepMergeCall data2 data1 with
    | .error msg => { calls := calls, outcome := .panicked msg }
    | .ok merged =>
      let rw : ResponseWriter :=
        { header := Header.set "Content-Type" "application/json" [], sent := none }
      let encoded := rw.write (.json merged) (w.writeFails (.json merged))
      if encoded.2 then
        { calls := calls,
          outcome := Outcome.ofWriter (httpError w encoded.1 "internal server error" 500) }
      else
        { calls := calls, outcome := .response encoded.1.finish }
  else
    let rw : ResponseWriter := { header := [], sent := none }
    match w.newRequestError r.method w.secondaryEndpoint with
    | some err => { calls := [], outcome := Outcome.ofWriter (httpError w rw err 400) }
    | none =>
      let proxyReq := proxyRequest w r
      match w.clientDo proxyReq with
      | .error err =>
        { calls := [Call.clientDo proxyReq], outcome := Outcome.ofWriter (httpError w rw err 502) }
      | .ok res =>
        let resp := res.returned
        let rw1 : ResponseWriter := { rw with header := copyHeader rw.header resp.header }
        match rw1.writeHeader resp.statusCode with
        | .error msg => { calls := [Call.clientDo proxyReq], outcome := .panicked msg }
        | .ok rw2 =>
          { calls := [Call.clientDo proxyReq],
            outcome := .response
              (ResponseWriter.finish
                (rw2.write (.raw resp.body) (w.writeFails (.raw resp.body))).1) }

/-! ## Concrete worlds, for the examples -/

/-- A world with endpoints `http://primary` and `http://secondary`, given what
each backend answers to a GET, whether writes to the caller fail, whether
`http.NewRequest` fails, and what `client.Do` yields. -/
def exampleWorld (primary secondary : Fetched) (writeFails : Bool)
    (newRequestError : Option String) (client : Except String ClientResult) : World :=
  { primaryEndpoint := "http://primary"
    secondaryEndpoint := "http://secondary"
    get := fun url => if url = "http://primary" then primary else secondary
    writeFails := fun _ => writeFails
    newRequestError := fun _ _ => newRequestError
    clientDo := fun _ => client }

/-- A GET request. -/
def exampleGet : Request := { method := "GET", header := [("Accept", ["*/*"])], body := [] }

/-- A DELETE request with two headers and a body. -/
def exampleDelete : Request :=
  { method := "DELETE"
    header := [("Accept", ["a/b", "c/d"]), ("X-Token", ["t"])]
    body := [1, 2, 3] }

/-- A response with a repeated header. -/
def exampleAnswer : Answer :=
  { statusCode := 202
    header := [("Set-Cookie", ["a=1", "b=2"]), ("X-Served-By", ["secondary"])]
    body := [111, 107] }

/-- A redirect, as the secondary endpoint may answer a request. -/
def exampleRedirect : Answer :=
  { statusCode := 302
    header := [("Location", ["http://elsewhere/"])]
    body := [] }

/-- A response with the status line `HTTP/1.1 099`, which the client accepts. -/
def exampleLowStatus : Answer :=
  { statusCode := 99
    header := []
    body := [] }

/-! ## The order on keys -/

theorem ltCodes_irrefl (xs : List Nat) : ltCodes xs xs = false := by
  induction xs with
  | nil => rfl
  | cons x xs ih => simp [ltCodes, ih]

theorem ltCodes_trans : ∀ (xs ys zs : List Nat),
    ltCodes xs ys = true → ltCodes ys zs = true → ltCodes xs zs = true
  | [], [], _, h, _ => by simp [ltCodes] at h
  | [], _ :: _, [], _, h => by simp [ltCodes] at h
  | [], _ :: _, _ :: _, _, _ => by simp [ltCodes]
  | _ :: _, [], _, h, _ => by simp [ltCodes] at h
  | _ :: _, _ :: _, [], _, h => by simp [ltCodes] at h
  | x :: xs, y :: ys, z :: zs, h1, h2 => by
    simp only [ltCodes, Bool.or_eq_true, Bool.and_eq_true, decide_eq_true_eq] at h1 h2 ⊢
    rcases h1 with h1 | ⟨h1, h1'⟩
    · rcases h2 with h2 | ⟨h2, _⟩
      · exact Or.inl (by omega)
      · exact Or.inl (by omega)
    · rcases h2 with h2 | ⟨h2, h2'⟩
      · exact Or.inl (by omega)
      · exact Or.inr ⟨by omega, ltCodes_trans xs ys zs h1' h2'⟩

theorem ltCodes_total : ∀ (xs ys : List Nat),
    xs ≠ ys → ltCodes xs ys = false → ltCodes ys xs = true
  | [], [], h, _ => absurd rfl h
  | [], _ :: _, _, h => by simp [ltCodes] at h
  | _ :: _, [], _, _ => by simp [ltCodes]
  | x :: xs, y :: ys, hne, h => by
    simp only [ltCodes, Bool.or_eq_false_iff, Bool.and_eq_false_imp, decide_eq_false_iff_not,
      decide_eq_true_eq, Bool.or_eq_true, Bool.and_eq_true] at h ⊢
    by_cases hxy : x = y
    · subst hxy
      have hne' : xs ≠ ys := fun e => hne (by rw [e])
      exact Or.inr ⟨rfl, ltCodes_total xs ys hne' (h.2 rfl)⟩
    · exact Or.inl (by omega)

theorem keyCodes_injective (a b : String)
    (h : a.data.map Char.toNat = b.data.map Char.toNat) : a = b := by
  have hinj : Function.Injective Char.toNat := by
    intro c d hcd
    apply Char.ext
    apply UInt32.ext
    exact hcd
  exact String.ext (List.map_injective_iff.mpr hinj h)

theorem keyLt_irrefl (a : String) : keyLt a a = false := ltCodes_irrefl _

theorem keyLt_trans {a b c : String} (h1 : keyLt a b = true) (h2 : keyLt b c = true) :
    keyLt a c = true := ltCodes_trans _ _ _ h1 h2

theorem keyLt_ne {a b : String} (h : keyLt a b = true) : a ≠ b := by
  intro e
  rw [e, keyLt_irrefl] at h
  exact Bool.noConfusion h

theorem keyLt_asymm {a b : String} (h : keyLt a b = true) : keyLt b a = false := by
  cases hba : keyLt b a with
  | false => rfl
  | true =>
    have := keyLt_trans h hba
    rw [keyLt_irrefl] at this
    exact Bool.noConfusion this

theorem keyLt_total {a b : String} (hne : a ≠ b) (h : keyLt a b = false) : keyLt b a = true :=
  ltCodes_total _ _ (fun e => hne (keyCodes_injective a b e)) h

/-! ## Reading and writing a map -/

theorem Map.get?_set_same {α : Type} (k : String) (v : α) (m : List (String × α)) :
    Map.get? k (Map.set k v m) = some v := by
  induction m with
  | nil => simp [Map.set, Map.get?]
  | cons e rest ih =>
    obtain ⟨k', v'⟩ := e
    unfold Map.set
    by_cases h1 : keyLt k k' = true
    · simp [h1, Map.get?]
    · by_cases h2 : k = k'
      · subst h2
        simp [h1, Map.get?]
      · simp [h1, h2, Map.get?, ih]

theorem Map.get?_set_ne {α : Type} {k k0 : String} (hne : k0 ≠ k) (v : α)
    (m : List (String × α)) : Map.get? k0 (Map.set k v m) = Map.get? k0 m := by
  induction m with
  | nil => simp [Map.set, Map.get?, hne]
  | cons e rest ih =>
    obtain ⟨k', v'⟩ := e
    unfold Map.set
    by_cases h1 : keyLt k k' = true
    · simp [h1, Map.get?, hne]
    · by_cases h2 : k = k'
      · subst h2
        simp [h1, Map.get?, hne]
      · simp [h1, h2, Map.get?, ih]

theorem Map.set_comm {α : Type} {k1 k2 : String} (hne : k1 ≠ k2) (a b : α)
    (m : List (String × α)) :
    Map.set k1 a (Map.set k2 b m) = Map.set k2 b (Map.set k1 a m) := by
  have hne' : k2 ≠ k1 := fun e => hne e.symm
  induction m with
  | nil =>
    cases h12 : keyLt k1 k2 with
    | true => simp [Map.set, h12, keyLt_asymm h12, hne']
    | false => simp [Map.set, h12, keyLt_total hne h12, hne]
  | cons e rest ih =>
    obtain ⟨k, v⟩ := e
    cases h1 : keyLt k1 k with
    | true =>
      have hk1 : k1 ≠ k := keyLt_ne h1
      cases h2 : keyLt k2 k with
      | true =>
        cases h12 : keyLt k1 k2 with
        | true => simp [Map.set, h1, h2, h12, keyLt_asymm h12, hne']
        | false => simp [Map.set, h1, h2, h12, keyLt_total hne h12, hne]
      | false =>
        by_cases e2 : k2 = k
        · subst e2
          simp [Map.set, h1, h2, keyLt_asymm h1, hne']
        · have hk2 : keyLt k k2 = true := keyLt_total e2 h2
          have h12 : keyLt k1 k2 = true := keyLt_trans h1 hk2
          simp [Map.set, h1, h2, e2, h12, keyLt_asymm h12, hne']
    | false =>
      by_cases e1 : k1 = k
      · subst e1
        cases h2 : keyLt k2 k1 with
        | true => simp [Map.set, h1, h2, keyLt_asymm h2, hne]
        | false =>
          simp [Map.set, h1, h2, hne', keyLt_irrefl]
      · have hk1 : keyLt k k1 = true := keyLt_total e1 h1
        cases h2 : keyLt k2 k with
        | true =>
          have h21 : keyLt k2 k1 = true := keyLt_trans h2 hk1
          simp [Map.set, h1, h2, e1, h21, keyLt_asymm h21, hne]
        | false =>
          by_cases e2 : k2 = k
          · subst e2
            simp [Map.set, h1, h2, e1, keyLt_irrefl]
          · simp [Map.set, h1, h2, e1, e2, ih]

theorem Map.mem_keys_set {α : Type} (k k0 : String) (v : α) (m : List (String × α)) :
    k0 ∈ Map.keys (Map.set k v m) ↔ k0 = k ∨ k0 ∈ Map.keys m := by
  induction m with
  | nil => simp [Map.set, Map.keys]
  | cons e rest ih =>
    obtain ⟨k', v'⟩ := e
    unfold Map.set
    by_cases h1 : keyLt k k' = true
    · simp [h1, Map.keys]
    · by_cases h2 : k = k'
      · subst h2
        simp [h1, Map.keys]
      · simp only [Map.keys] at ih
        rw [if_neg h1, if_neg h2]
        simp only [Map.keys, List.map_cons, List.mem_cons]
        rw [ih]
        tauto

theorem Map.get?_eq_none_iff {α : Type} (k : String) (m : List (String × α)) :
    Map.get? k m = none ↔ k ∉ Map.keys m := by
  induction m with
  | nil => simp [Map.get?, Map.keys]
  | cons e rest ih =>
    obtain ⟨k', v'⟩ := e
    simp only [Map.keys] at ih
    by_cases h : k = k'
    · simp [Map.get?, Map.keys, h]
    · simp [Map.get?, Map.keys, h, ih]

theorem Map.ordered_cons {α : Type} (k : String) (v : α) (m : List (String × α)) :
    Map.ordered ((k, v) :: m) = true ↔
      (∀ k' ∈ Map.keys m, keyLt k k' = true) ∧ Map.ordered m = true := by
  induction m generalizing k v with
  | nil => simp [Map.ordered, Map.keys]
  | cons e rest ih =>
    obtain ⟨k1, v1⟩ := e
    simp only [Map.ordered, Bool.and_eq_true, Map.keys, List.map_cons, List.mem_cons,
      forall_eq_or_imp]
    constructor
    · rintro ⟨h1, h2⟩
      refine ⟨⟨h1, ?_⟩, h2⟩
      intro k' hk'
      exact keyLt_trans h1 (((ih k1 v1).mp h2).1 k' hk')
    · rintro ⟨⟨h1, _⟩, h2⟩
      exact ⟨h1, h2⟩

theorem Map.ordered_tail {α : Type} {e : String × α} {m : List (String × α)}
    (h : Map.ordered (e :: m) = true) : Map.ordered m = true := by
  obtain ⟨k, v⟩ := e
  exact ((Map.ordered_cons k v m).mp h).2

theorem Map.ordered_head_absent {α : Type} {k : String} {v : α} {m : List (String × α)}
    (h : Map.ordered ((k, v) :: m) = true) : Map.get? k m = none := by
  rw [Map.get?_eq_none_iff]
  intro hk
  have := ((Map.ordered_cons k v m).mp h).1 k hk
  rw [keyLt_irrefl] at this
  exact Bool.noConfusion this

theorem Map.ordered_set {α : Type} (k : String) (v : α) (m : List (String × α))
    (h : Map.ordered m = true) : Map.ordered (Map.set k v m) = true := by
  induction m with
  | nil => simp [Map.set, Map.ordered]
  | cons e rest ih =>
    obtain ⟨k', v'⟩ := e
    have hc := (Map.ordered_cons k' v' rest).mp h
    unfold Map.set
    by_cases h1 : keyLt k k' = true
    · rw [if_pos h1]
      simp [Map.ordered, h1, h]
    · rw [if_neg h1]
      by_cases h2 : k = k'
      · subst h2
        rw [if_pos rfl]
        exact (Map.ordered_cons k v rest).mpr hc
      · rw [if_neg h2]
        rw [Map.ordered_cons]
        refine ⟨?_, ih hc.2⟩
        intro k0 hk0
        rcases (Map.mem_keys_set k k0 v rest).mp hk0 with e0 | hk0
        · subst e0
          exact keyLt_total h2 (by simpa using h1)
        · exact hc.1 k0 hk0

/-! ## One iteration, and the whole loop -/

theorem mergeEntry_eq (dst : Obj) (key : String) (val : Value) :
    mergeEntry dst key val = Map.set key (mergeValue (Map.get? key dst) val) dst := by
  unfold mergeEntry
  cases h : Map.get? key dst with
  | none => cases val <;> rfl
  | some e => cases e <;> cases val <;> rfl

theorem deepMerge_cons (dst : Obj) (k : String) (v : Value) (rest : Obj) :
    deepMerge dst ((k, v) :: rest) = deepMerge (mergeEntry dst k v) rest := by
  rw [deepMerge]

theorem deepMerge_nil (dst : Obj) : deepMerge dst [] = dst := by
  rw [deepMerge]

theorem get?_mergeEntry_same (dst : Obj) (key : String) (val : Value) :
    Map.get? key (mergeEntry dst key val) = some (mergeValue (Map.get? key dst) val) := by
  rw [mergeEntry_eq, Map.get?_set_same]

theorem get?_mergeEntry_ne (dst : Obj) {key k : String} (hne : k ≠ key) (val : Value) :
    Map.get? k (mergeEntry dst key val) = Map.get? k dst := by
  rw [mergeEntry_eq, Map.get?_set_ne hne]

theorem get?_deepMerge_absent (k : String) (src : Obj) :
    ∀ dst : Obj, Map.get? k src = none → Map.get? k (deepMerge dst src) = Map.get? k dst := by
  induction src with
  | nil => intro dst _; rw [deepMerge_nil]
  | cons e rest ih =>
    obtain ⟨k', v'⟩ := e
    intro dst h
    by_cases hk : k = k'
    · simp [Map.get?, hk] at h
    · simp only [Map.get?, hk, if_false] at h
      rw [deepMerge_cons, ih _ h, get?_mergeEntry_ne dst hk]

theorem get?_deepMerge_present (k : String) (v : Value) (src : Obj) :
    ∀ dst : Obj, Map.ordered src = true → Map.get? k src = some v →
      Map.get? k (deepMerge dst src) = some (mergeValue (Map.get? k dst) v) := by
  induction src with
  | nil => intro dst _ h; simp [Map.get?] at h
  | cons e rest ih =>
    obtain ⟨k', v'⟩ := e
    intro dst hord h
    by_cases hk : k = k'
    · subst hk
      simp only [Map.get?, if_true, Option.some.injEq] at h
      subst h
      rw [deepMerge_cons, get?_deepMerge_absent k rest _ (Map.ordered_head_absent hord),
        get?_mergeEntry_same]
    · simp only [Map.get?, hk, if_false] at h
      rw [deepMerge_cons, ih _ (Map.ordered_tail hord) h, get?_mergeEntry_ne dst hk]

theorem mergeEntry_comm (dst : Obj) {k1 k2 : String} (hne : k1 ≠ k2) (v1 v2 : Value) :
    mergeEntry (mergeEntry dst k1 v1) k2 v2 = mergeEntry (mergeEntry dst k2 v2) k1 v1 := by
  have hne' : k2 ≠ k1 := fun e => hne e.symm
  rw [mergeEntry_eq (mergeEntry dst k1 v1), mergeEntry_eq (mergeEntry dst k2 v2),
    get?_mergeEntry_ne dst hne', get?_mergeEntry_ne dst hne, mergeEntry_eq dst k1,
    mergeEntry_eq dst k2, Map.set_comm hne']

theorem Map.ordered_nodup {α : Type} (m : List (String × α)) (h : Map.ordered m = true) :
    (Map.keys m).Nodup := by
  induction m with
  | nil => simp [Map.keys]
  | cons e rest ih =>
    obtain ⟨k, v⟩ := e
    have hc := (Map.ordered_cons k v rest).mp h
    simp only [Map.keys, List.map_cons, List.nodup_cons]
    refine ⟨?_, ih hc.2⟩
    intro hk
    have := hc.1 k hk
    rw [keyLt_irrefl] at this
    exact Bool.noConfusion this

theorem deepMerge_perm {l1 l2 : Obj} (p : l1.Perm l2) :
    (Map.keys l1).Nodup → ∀ dst : Obj, deepMerge dst l1 = deepMerge dst l2 := by
  induction p with
  | nil => intro _ _; rfl
  | cons x _ ih =>
    obtain ⟨k, v⟩ := x
    intro hnd dst
    simp only [Map.keys, List.map_cons, List.nodup_cons] at hnd
    rw [deepMerge_cons, deepMerge_cons]
    exact ih hnd.2 _
  | swap x y l =>
    obtain ⟨k1, v1⟩ := x
    obtain ⟨k2, v2⟩ := y
    intro hnd dst
    simp only [Map.keys, List.map_cons, List.nodup_cons, List.mem_cons, not_or] at hnd
    rw [deepMerge_cons, deepMerge_cons, deepMerge_cons, deepMerge_cons,
      mergeEntry_comm dst hnd.1.1]
  | trans p1 _ ih1 ih2 =>
    intro hnd dst
    have hnd2 := ((p1.map Prod.fst).nodup_iff).mp hnd
    rw [ih1 hnd dst]
    exact ih2 hnd2 dst

theorem wfEntries_iff (l : List (String × Value)) :
    wfEntries l = true ↔ ∀ e ∈ l, Value.wf e.2 = true := by
  induction l with
  | nil => simp [wfEntries]
  | cons e rest ih =>
    obtain ⟨k, v⟩ := e
    simp [wfEntries, ih]

theorem wf_obj_iff (m : Obj) :
    Value.wf (.obj m) = true ↔ Map.ordered m = true ∧ wfEntries m = true := by
  simp [Value.wf]

theorem Map.mem_of_get? {α : Type} {k : String} {v : α} {m : List (String × α)}
    (h : Map.get? k m = some v) : (k, v) ∈ m := by
  induction m with
  | nil => simp [Map.get?] at h
  | cons e rest ih =>
    obtain ⟨k', v'⟩ := e
    by_cases hk : k = k'
    · subst hk
      simp only [Map.get?, if_true, Option.some.injEq] at h
      subst h
      exact List.mem_cons_self _ _
    · simp only [Map.get?, hk, if_false] at h
      exact List.mem_cons_of_mem _ (ih h)

theorem wf_of_get? {k : String} {v : Value} {m : Obj}
    (hm : wfEntries m = true) (h : Map.get? k m = some v) : Value.wf v = true :=
  (wfEntries_iff m).mp hm (k, v) (Map.mem_of_get? h)

theorem MergeRun.eq_deepMerge {dst : Obj} {order : List (String × Value)} {out : Obj}
    (h : MergeRun dst order out) : wfEntries order = true → out = deepMerge dst order := by
  induction h with
  | done dst => intro _; rw [deepMerge_nil]
  | @recurse dst key mapA mapB order merged rest out hget hperm _ _ ih1 ih2 =>
    intro hwf
    simp only [wfEntries, Bool.and_eq_true] at hwf
    obtain ⟨hB, hrest⟩ := hwf
    obtain ⟨hBord, hBwf⟩ := (wf_obj_iff mapB).mp hB
    have horder : wfEntries order = true := by
      rw [wfEntries_iff] at hBwf ⊢
      intro e he
      exact hBwf e (hperm.mem_iff.mp he)
    have hnd : (Map.keys order).Nodup :=
      ((hperm.map Prod.fst).nodup_iff).mpr (Map.ordered_nodup mapB hBord)
    have hm : merged = deepMerge mapA mapB := by
      rw [ih1 horder]
      exact deepMerge_perm hperm hnd mapA
    rw [ih2 hrest, deepMerge_cons, mergeEntry_eq, hget, hm]
    rfl
  | @append dst key arrA arrB rest out hget _ ih =>
    intro hwf
    simp only [wfEntries, Bool.and_eq_true] at hwf
    rw [ih hwf.2, deepMerge_cons, mergeEntry_eq, hget]
    rfl
  | @assign dst key val rest out hobj harr _ ih =>
    intro hwf
    simp only [wfEntries, Bool.and_eq_true] at hwf
    have hv : mergeValue (Map.get? key dst) val = val := by
      cases hg : Map.get? key dst with
      | none => rfl
      | some e =>
        cases e with
        | obj a =>
          cases val with
          | obj b => exact absurd ⟨hg, rfl⟩ (hobj a b)
          | _ => rfl
        | arr a =>
          cases val with
          | arr b => exact absurd ⟨hg, rfl⟩ (harr a b)
          | _ => rfl
        | _ => rfl
    rw [ih hwf.2, deepMerge_cons, mergeEntry_eq, hv]

mutual
theorem MergeRun.of_deepMerge : ∀ (src dst : Obj), MergeRun dst src (deepMerge dst src)
  | [], dst => by rw [deepMerge_nil]; exact MergeRun.done dst
  | (k, v) :: rest, dst => by
    rw [deepMerge_cons]
    exact MergeRun.of_mergeEntry v k dst rest _ (MergeRun.of_deepMerge rest _)
theorem MergeRun.of_mergeEntry : ∀ (val : Value) (key : String) (dst : Obj)
    (rest : List (String × Value)) (out : Obj),
    MergeRun (mergeEntry dst key val) rest out → MergeRun dst ((key, val) :: rest) out
  | .obj mapB, key, dst, rest, out, h => by
    rw [mergeEntry_eq] at h
    cases hg : Map.get? key dst with
    | none =>
      rw [hg] at h
      exact MergeRun.assign (by simp [hg]) (by simp [hg]) h
    | some e =>
      rw [hg] at h
      cases e with
      | obj mapA =>
        exact MergeRun.recurse hg (List.Perm.refl mapB) (MergeRun.of_deepMerge mapB mapA) h
      | arr a => exact MergeRun.assign (by simp [hg]) (by simp [hg]) h
      | null => exact MergeRun.assign (by simp [hg]) (by simp [hg]) h
      | bool b => exact MergeRun.assign (by simp [hg]) (by simp [hg]) h
      | num q => exact MergeRun.assign (by simp [hg]) (by simp [hg]) h
      | str t => exact MergeRun.assign (by simp [hg]) (by simp [hg]) h
  | .arr arrB, key, dst, rest, out, h => by
    rw [mergeEntry_eq] at h
    cases hg : Map.get? key dst with
    | none =>
      rw [hg] at h
      exact MergeRun.assign (by simp [hg]) (by simp [hg]) h
    | some e =>
      rw [hg] at h
      cases e with
      | arr arrA => exact MergeRun.append hg h
      | obj a => exact MergeRun.assign (by simp [hg]) (by simp [hg]) h
      | null => exact MergeRun.assign (by simp [hg]) (by simp [hg]) h
      | bool b => exact MergeRun.assign (by simp [hg]) (by simp [hg]) h
      | num q => exact MergeRun.assign (by simp [hg]) (by simp [hg]) h
      | str t => exact MergeRun.assign (by simp [hg]) (by simp [hg]) h
  | .null, key, dst, rest, out, h => by
    rw [mergeEntry_eq] at h
    exact MergeRun.assign (by simp) (by simp) (by simpa [mergeValue] using h)
  | .bool b, key, dst, rest, out, h => by
    rw [mergeEntry_eq] at h
    exact MergeRun.assign (by simp) (by simp) (by simpa [mergeValue] using h)
  | .num q, key, dst, rest, out, h => by
    rw [mergeEntry_eq] at h
    exact MergeRun.assign (by simp) (by simp) (by simpa [mergeValue] using h)
  | .str t, key, dst, rest, out, h => by
    rw [mergeEntry_eq] at h
    exact MergeRun.assign (by simp) (by simp) (by simpa [mergeValue] using h)
end

theorem mem_keys_deepMerge (k : String) (src : Obj) :
    ∀ dst : Obj, k ∈ Map.keys (deepMerge dst src) ↔ k ∈ Map.keys dst ∨ k ∈ Map.keys src := by
  induction src with
  | nil => intro dst; rw [deepMerge_nil]; simp [Map.keys]
  | cons e rest ih =>
    obtain ⟨k', v'⟩ := e
    intro dst
    rw [deepMerge_cons, ih, mergeEntry_eq, Map.mem_keys_set]
    simp only [Map.keys, List.map_cons, List.mem_cons]
    tauto

theorem ordered_deepMerge (src : Obj) :
    ∀ dst : Obj, Map.ordered dst = true → Map.ordered (deepMerge dst src) = true := by
  induction src with
  | nil => intro dst h; rw [deepMerge_nil]; exact h
  | cons e rest ih =>
    obtain ⟨k', v'⟩ := e
    intro dst h
    rw [deepMerge_cons]
    apply ih
    rw [mergeEntry_eq]
    exact Map.ordered_set _ _ _ h

theorem Map.set_last {α : Type} (k : String) (v : α) (m : List (String × α))
    (h : ∀ k' ∈ Map.keys m, keyLt k' k = true) : Map.set k v m = m ++ [(k, v)] := by
  induction m with
  | nil => rfl
  | cons e rest ih =>
    obtain ⟨k', v'⟩ := e
    have hk : keyLt k' k = true := h k' (by simp [Map.keys])
    have hrest : ∀ k0 ∈ Map.keys rest, keyLt k0 k = true := by
      intro k0 hk0
      exact h k0 (by simp only [Map.keys, List.map_cons, List.mem_cons]; exact Or.inr hk0)
    have h1 : ¬ keyLt k k' = true := by rw [keyLt_asymm hk]; exact Bool.noConfusion
    have h2 : ¬ k = k' := fun e => keyLt_ne hk e.symm
    unfold Map.set
    rw [if_neg h1, if_neg h2, ih hrest]
    rfl

theorem Map.ordered_append_cons {α : Type} (pre : List (String × α)) (k : String) (v : α)
    (rest : List (String × α)) (h : Map.ordered (pre ++ (k, v) :: rest) = true) :
    ∀ k' ∈ Map.keys pre, keyLt k' k = true := by
  induction pre with
  | nil => intro k' hk'; simp [Map.keys] at hk'
  | cons e pre ih =>
    obtain ⟨k0, v0⟩ := e
    have hc := (Map.ordered_cons k0 v0 (pre ++ (k, v) :: rest)).mp h
    intro k' hk'
    simp only [Map.keys, List.map_cons, List.mem_cons] at hk'
    rcases hk' with e' | hk'
    · subst e'
      exact hc.1 k (by simp [Map.keys])
    · exact ih hc.2 k' hk'

theorem deepMerge_append (src : Obj) :
    ∀ pre : Obj, Map.ordered (pre ++ src) = true → deepMerge pre src = pre ++ src := by
  induction src with
  | nil => intro pre _; rw [deepMerge_nil]; simp
  | cons e rest ih =>
    obtain ⟨k, v⟩ := e
    intro pre h
    have hlt := Map.ordered_append_cons pre k v rest h
    have habs : Map.get? k pre = none := by
      rw [Map.get?_eq_none_iff]
      intro hk
      have := hlt k hk
      rw [keyLt_irrefl] at this
      exact Bool.noConfusion this
    have hstep : mergeEntry pre k v = pre ++ [(k, v)] := by
      rw [mergeEntry_eq, habs]
      exact Map.set_last k v pre hlt
    rw [deepMerge_cons, hstep, ih (pre ++ [(k, v)]) (by simpa using h)]
    simp

theorem descend_deepMerge (path : List String) :
    ∀ (base overlay a b : Obj), Value.wf (.obj overlay) = true →
      descend path base = some a → descend path overlay = some b →
      descend path (deepMerge base overlay) = some (deepMerge a b) := by
  induction path with
  | nil =>
    intro base overlay a b _ ha hb
    simp only [descend, Option.some.injEq] at ha hb
    subst ha
    subst hb
    rfl
  | cons k path ih =>
    intro base overlay a b hwf ha hb
    obtain ⟨hord, hent⟩ := (wf_obj_iff overlay).mp hwf
    cases hgb : Map.get? k base with
    | none => simp [descend, hgb] at ha
    | some eb =>
      cases hgo : Map.get? k overlay with
      | none => simp [descend, hgo] at hb
      | some eo =>
        cases eb with
        | obj a1 =>
          cases eo with
          | obj b1 =>
            simp only [descend, hgb] at ha
            simp only [descend, hgo] at hb
            have hb1 : Value.wf (.obj b1) = true := wf_of_get? hent hgo
            have hget := get?_deepMerge_present k (.obj b1) overlay base hord hgo
            rw [hgb] at hget
            simp only [descend, hget, mergeValue]
            exact ih a1 b1 a b hb1 ha hb
          | _ => simp [descend, hgo] at hb
        | _ => simp [descend, hgb] at ha

/-! ## The merge rule, key by key -/

/-- C1: for a key whose values in `base` and in `overlay` are both objects, the
merged map holds under that key the merge of the two objects; and along every
path of keys leading through objects on both sides, the merged map holds the
merge of the two objects found there. -/
theorem deepMerge_recurses_into_objects (base overlay : Obj) (k : String) (a b : Obj)
    (hord : Map.ordered overlay = true)
    (hbase : Map.get? k base = some (.obj a))
    (hover : Map.get? k overlay = some (.obj b)) :
    Map.get? k (deepMerge base overlay) = some (.obj (deepMerge a b)) ∧
    (Value.wf (.obj overlay) = true → ∀ (path : List String) (a1 b1 : Obj),
      descend path base = some a1 → descend path overlay = some b1 →
      descend path (deepMerge base overlay) = some (deepMerge a1 b1)) := by
  refine ⟨?_, ?_⟩
  · rw [get?_deepMerge_present k (.obj b) overlay base hord hover, hbase]
    rfl
  · intro hwf path a1 b1 ha hb
    exact descend_deepMerge path base overlay a1 b1 hwf ha hb

theorem deepMerge_recurses_into_objects_witness :
    Map.get? "b" (deepMerge [("b", .obj [("y", .num 2)])] [("b", .obj [("x", .num 1)])])
      = some (.obj [("x", .num 1), ("y", .num 2)]) :=
  (deepMerge_recurses_into_objects [("b", .obj [("y", .num 2)])] [("b", .obj [("x", .num 1)])]
    "b" [("y", .num 2)] [("x", .num 1)] rfl rfl rfl).1

/-- C2: for a key whose values in `base` and in `overlay` are both arrays, the
merged map holds under that key the elements of the base array followed by the
elements of the overlay array. -/
theorem deepMerge_concatenates_arrays (base overlay : Obj) (k : String) (xs ys : List Value)
    (hord : Map.ordered overlay = true)
    (hbase : Map.get? k base = some (.arr xs))
    (hover : Map.get? k overlay = some (.arr ys)) :
    Map.get? k (deepMerge base overlay) = some (.arr (xs ++ ys)) := by
  rw [get?_deepMerge_present k (.arr ys) overlay base hord hover, hbase]
  rfl

theorem deepMerge_concatenates_arrays_witness :
    Map.get? "list" (deepMerge [("list", .arr [.str "s1", .str "s2"])] [("list", .arr [.str "p"])])
      = some (.arr [.str "s1", .str "s2", .str "p"]) :=
  deepMerge_concatenates_arrays [("list", .arr [.str "s1", .str "s2"])]
    [("list", .arr [.str "p"])] "list" [.str "s1", .str "s2"] [.str "p"] rfl rfl rfl

/-- C3: for a key of `overlay` that is absent from `base`, or whose two values
are neither both objects nor both arrays, the merged map holds the overlay's
value under that key. -/
theorem deepMerge_overlay_replaces (base overlay : Obj) (k : String) (v : Value)
    (hord : Map.ordered overlay = true)
    (hover : Map.get? k overlay = some v)
    (hshape : Map.get? k base = none ∨
      ∃ e, Map.get? k base = some e ∧
        (e.isObj && v.isObj) = false ∧ (e.isArr && v.isArr) = false) :
    Map.get? k (deepMerge base overlay) = some v := by
  rw [get?_deepMerge_present k v overlay base hord hover]
  rcases hshape with hnone | ⟨e, he, hobj, harr⟩
  · rw [hnone]
    cases v <;> rfl
  · rw [he]
    cases e <;> cases v <;>
      first
      | rfl
      | (simp [Value.isObj] at hobj; done)
      | simp [Value.isArr] at harr

theorem deepMerge_overlay_replaces_witness :
    Map.get? "a" (deepMerge [("a", .obj [("y", .num 2)])] [("a", .arr [.null])])
      = some (.arr [.null]) :=
  deepMerge_overlay_replaces [("a", .obj [("y", .num 2)])] [("a", .arr [.null])] "a"
    (.arr [.null]) rfl rfl (Or.inr ⟨.obj [("y", .num 2)], rfl, rfl, rfl⟩)

/-- C4: a key of `base` that is absent from `overlay` keeps its value in the
merged map; the same holds inside the nested objects that are merged, along any
path of keys leading through objects on both sides. -/
theorem deepMerge_keeps_base_only_keys (base overlay : Obj) (k : String) (v : Value)
    (hbase : Map.get? k base = some v)
    (hover : Map.get? k overlay = none) :
    Map.get? k (deepMerge base overlay) = some v ∧
    (Value.wf (.obj overlay) = true → ∀ (path : List String) (a b : Obj) (k1 : String)
      (v1 : Value), descend path base = some a → descend path overlay = some b →
      Map.get? k1 a = some v1 → Map.get? k1 b = none →
      ∃ r, descend path (deepMerge base overlay) = some r ∧ Map.get? k1 r = some v1) := by
  refine ⟨?_, ?_⟩
  · rw [get?_deepMerge_absent k overlay base hover, hbase]
  · intro hwf path a b k1 v1 ha hb hk1 hno
    refine ⟨deepMerge a b, descend_deepMerge path base overlay a b hwf ha hb, ?_⟩
    rw [get?_deepMerge_absent k1 b a hno, hk1]

theorem deepMerge_keeps_base_only_keys_witness :
    Map.get? "c" (deepMerge [("b", .obj [("y", .num 2)]), ("c", .arr [.num 1, .num 2])]
      [("a", .num 1), ("b", .obj [("x", .num 1)])]) = some (.arr [.num 1, .num 2]) :=
  (deepMerge_keeps_base_only_keys [("b", .obj [("y", .num 2)]), ("c", .arr [.num 1, .num 2])]
    [("a", .num 1), ("b", .obj [("x", .num 1)])] "c" (.arr [.num 1, .num 2]) rfl rfl).1

/-- C5: when `A` (overlay) and `B` (base) have no key in common, the merged map
has exactly the keys of `A` and of `B`, each key of `A` with the value of `A`,
each key of `B` with the value of `B`, and no key twice. -/
theorem deepMerge_disjoint_is_union (A B : Obj)
    (hA : Map.ordered A = true)
    (hdisj : ∀ k, k ∈ Map.keys A → k ∉ Map.keys B) :
    (∀ k, k ∈ Map.keys (deepMerge B A) ↔ k ∈ Map.keys A ∨ k ∈ Map.keys B) ∧
    (∀ k v, Map.get? k A = some v → Map.get? k (deepMerge B A) = some v) ∧
    (∀ k v, Map.get? k B = some v → Map.get? k (deepMerge B A) = some v) ∧
    (Map.ordered B = true → Map.ordered (deepMerge B A) = true) := by
  refine ⟨?_, ?_, ?_, ?_⟩
  · intro k
    rw [mem_keys_deepMerge]
    tauto
  · intro k v hk
    have hkA : k ∈ Map.keys A := by
      by_contra hn
      rw [(Map.get?_eq_none_iff k A).mpr hn] at hk
      exact Option.noConfusion hk
    have hB : Map.get? k B = none := (Map.get?_eq_none_iff k B).mpr (hdisj k hkA)
    rw [get?_deepMerge_present k v A B hA hk, hB]
    cases v <;> rfl
  · intro k v hk
    have hkB : k ∈ Map.keys B := by
      by_contra hn
      rw [(Map.get?_eq_none_iff k B).mpr hn] at hk
      exact Option.noConfusion hk
    have hA' : Map.get? k A = none :=
      (Map.get?_eq_none_iff k A).mpr (fun hkA => hdisj k hkA hkB)
    rw [get?_deepMerge_absent k A B hA', hk]
  · intro hB
    exact ordered_deepMerge A B hB

theorem deepMerge_disjoint_is_union_witness :
    deepMerge [("c", .arr [.num 1, .num 2])] [("a", .num 1), ("d", .null)]
      = [("a", .num 1), ("c", .arr [.num 1, .num 2]), ("d", .null)] ∧
    (∀ k, k ∈ Map.keys (deepMerge [("c", .arr [.num 1, .num 2])] [("a", .num 1), ("d", .null)])
      ↔ k ∈ Map.keys [("a", Value.num 1), ("d", Value.null)]
        ∨ k ∈ Map.keys [("c", Value.arr [.num 1, .num 2])]) :=
  ⟨rfl, (deepMerge_disjoint_is_union [("a", .num 1), ("d", .null)]
    [("c", .arr [.num 1, .num 2])] rfl (by decide)).1⟩

/-- C9: `deepMerge` returns for every pair of objects, and whatever order the
entries of the overlay are visited in, at every nesting level, what it returns
is the same map. -/
theorem deepMerge_total_and_order_independent (base overlay : Obj)
    (hwf : Value.wf (.obj overlay) = true) :
    DeepMergeReturns base overlay (deepMerge base overlay) ∧
    ∀ out, DeepMergeReturns base overlay out → out = deepMerge base overlay := by
  obtain ⟨hord, hent⟩ := (wf_obj_iff overlay).mp hwf
  refine ⟨⟨overlay, List.Perm.refl overlay, MergeRun.of_deepMerge overlay base⟩, ?_⟩
  rintro out ⟨order, hperm, hrun⟩
  have horder : wfEntries order = true := by
    rw [wfEntries_iff] at hent ⊢
    intro e he
    exact hent e (hperm.mem_iff.mp he)
  have hnd : (Map.keys order).Nodup :=
    ((hperm.map Prod.fst).nodup_iff).mpr (Map.ordered_nodup overlay hord)
  rw [hrun.eq_deepMerge horder]
  exact deepMerge_perm hperm hnd base

theorem deepMerge_total_and_order_independent_witness :
    DeepMergeReturns [("b", .obj [("y", .num 2)]), ("c", .arr [.num 1, .num 2])]
      [("a", .num 1), ("b", .obj [("x", .num 1)])]
      [("a", .num 1), ("b", .obj [("x", .num 1), ("y", .num 2)]), ("c", .arr [.num 1, .num 2])] ∧
    ∀ out, DeepMergeReturns [("b", .obj [("y", .num 2)]), ("c", .arr [.num 1, .num 2])]
      [("a", .num 1), ("b", .obj [("x", .num 1)])] out →
      out = [("a", .num 1), ("b", .obj [("x", .num 1), ("y", .num 2)]),
        ("c", .arr [.num 1, .num 2])] :=
  deepMerge_total_and_order_independent
    [("b", .obj [("y", .num 2)]), ("c", .arr [.num 1, .num 2])]
    [("a", .num 1), ("b", .obj [("x", .num 1)])] rfl

/-! ## Copying headers -/

theorem Header.values_add_same (k v : String) (h : Header) :
    Header.values (Header.add k v h) k = Header.values h k ++ [v] := by
  simp [Header.add, Header.values, Map.get?_set_same]

theorem Header.values_add_ne {k k0 : String} (hne : k0 ≠ k) (v : String) (h : Header) :
    Header.values (Header.add k v h) k0 = Header.values h k0 := by
  simp [Header.add, Header.values, Map.get?_set_ne hne]

theorem values_foldl_add_same (k : String) (vv : List String) :
    ∀ dst : Header,
      Header.values (vv.foldl (fun h v => Header.add k v h) dst) k = Header.values dst k ++ vv := by
  induction vv with
  | nil => intro dst; simp
  | cons v vv ih =>
    intro dst
    rw [List.foldl_cons, ih, Header.values_add_same]
    simp

theorem values_foldl_add_ne {k k0 : String} (hne : k0 ≠ k) (vv : List String) :
    ∀ dst : Header,
      Header.values (vv.foldl (fun h v => Header.add k v h) dst) k0 = Header.values dst k0 := by
  induction vv with
  | nil => intro dst; rfl
  | cons v vv ih =>
    intro dst
    rw [List.foldl_cons, ih, Header.values_add_ne hne]

theorem values_copyHeader_absent (k : String) (src : Header) :
    ∀ dst : Header, Map.get? k src = none →
      Header.values (copyHeader dst src) k = Header.values dst k := by
  induction src with
  | nil => intro dst _; rfl
  | cons e rest ih =>
    obtain ⟨k', vv⟩ := e
    intro dst h
    by_cases hk : k = k'
    · simp [Map.get?, hk] at h
    · simp only [Map.get?, hk, if_false] at h
      rw [copyHeader, ih _ h, values_foldl_add_ne hk]

theorem values_copyHeader_present (k : String) (vv : List String) (src : Header) :
    ∀ dst : Header, Map.ordered src = true → Map.get? k src = some vv →
      Header.values (copyHeader dst src) k = Header.values dst k ++ vv := by
  induction src with
  | nil => intro dst _ h; simp [Map.get?] at h
  | cons e rest ih =>
    obtain ⟨k', vv'⟩ := e
    intro dst hord h
    by_cases hk : k = k'
    · subst hk
      simp only [Map.get?, if_true, Option.some.injEq] at h
      subst h
      rw [copyHeader, values_copyHeader_absent k rest _ (Map.ordered_head_absent hord),
        values_foldl_add_same]
    · simp only [Map.get?, hk, if_false] at h
      rw [copyHeader, ih _ (Map.ordered_tail hord) h, values_foldl_add_ne hk]

theorem values_copyHeader (src : Header) (hord : Map.ordered src = true) (k : String) :
    Header.values (copyHeader [] src) k = Header.values src k := by
  cases h : Map.get? k src with
  | none =>
    rw [values_copyHeader_absent k src [] h]
    simp [Header.values, h, Map.get?]
  | some vv =>
    rw [values_copyHeader_present k vv src [] hord h]
    simp [Header.values, h, Map.get?]

/-! ## Fetching a document -/

theorem fetchJSON_of_failed (w : World) (url : String) (h : fetchFailed w url = true) :
    fetchJSON w url = some [] := by
  unfold fetchFailed at h
  unfold fetchJSON
  cases hg : w.get url with
  | getError e => rfl
  | readError e => rfl
  | body b =>
    rw [hg] at h
    simp only at h ⊢
    cases hu : unmarshal b with
    | error e => rfl
    | ok d => rw [hu] at h; exact Bool.noConfusion h

/-- What `fetchJSON` returns, for every outcome of the GET: the decoded map for a
body that is a JSON object, the nil map for the body `null`, and the empty map
for any other body and for a failed GET or read. -/
theorem fetchJSON_cases (w : World) (url : String) :
    fetchJSON w url =
      match w.get url with
      | .body (.json (.obj m)) => some m
      | .body (.json .null) => none
      | _ => some [] := by
  unfold fetchJSON
  cases hg : w.get url with
  | getError e => rfl
  | readError e => rfl
  | body b =>
    cases b with
    | notJSON => rfl
    | numberOutOfRange => rfl
    | json v => cases v <;> rfl

/-- C8, at the body `null`: `json.Unmarshal` reports no error and leaves `data`
nil, so `fetchJSON` returns the nil map and not the empty object; with that
document as the base of the merge and a primary document that has a key,
`handler` panics, and with both bodies `null` it serves the JSON text of a nil map. -/
theorem fetchJSON_null_body_returns_nil :
    fetchJSON (exampleWorld (.body (.json (.obj [("a", .num 1)]))) (.body (.json .null))
      false none (.error "unused")) "http://secondary" = none ∧
    (handler (exampleWorld (.body (.json (.obj [("a", .num 1)]))) (.body (.json .null))
      false none (.error "unused")) exampleGet).outcome
      = .panicked "assignment to entry in nil map" ∧
    (handler (exampleWorld (.body (.json .null)) (.body (.json .null))
      false none (.error "unused")) exampleGet).outcome
      = .response { status := 200, header := [("Content-Type", ["application/json"])],
                    body := [.json none], complete := true } :=
  ⟨rfl, rfl, rfl⟩

/-! ## The read path of `handler` -/

theorem handler_get (w : World) (r : Request) (hget : r.method = "GET") :
    handler w r =
      match deepMergeCall (fetchJSON w w.secondaryEndpoint) (fetchJSON w w.primaryEndpoint) with
      | .error msg =>
        { calls := [Call.get w.primaryEndpoint, Call.get w.secondaryEndpoint],
          outcome := .panicked msg }
      | .ok merged =>
        { calls := [Call.get w.primaryEndpoint, Call.get w.secondaryEndpoint],
          outcome := .response
            { status := 200, header := [("Content-Type", ["application/json"])],
              body := [.json merged], complete := !w.writeFails (.json merged) } } := by
  unfold handler
  rw [if_pos hget]
  dsimp only
  cases hc : deepMergeCall (fetchJSON w w.secondaryEndpoint) (fetchJSON w w.primaryEndpoint) with
  | error msg => rfl
  | ok merged =>
    cases hf : w.writeFails (.json merged) with
    | false => simp [ResponseWriter.write, ResponseWriter.finish, Header.set, Map.set, hf]
    | true =>
      simp [ResponseWriter.write, ResponseWriter.finish, ResponseWriter.writeHeader, httpError,
        Outcome.ofWriter, Header.set, Map.set, hf]

/-- The read path, whenever the merge call returns: the response is 200 with
`Content-Type: application/json` and the JSON text of the merged document as its
body, whether or not the write to the caller fails part-way (the call of
`http.Error` after a failed write changes nothing that was sent); with two
object documents the merged document is `deepMerge` of the secondary as base and
the primary as overlay, so a key of the primary whose value is neither an object
nor an array is served with the primary's value. -/
theorem handler_get_response (w : World) (r : Request) (hget : r.method = "GET") :
    (handler w r).calls = [Call.get w.primaryEndpoint, Call.get w.secondaryEndpoint] ∧
    (∀ merged,
      deepMergeCall (fetchJSON w w.secondaryEndpoint) (fetchJSON w w.primaryEndpoint)
        = .ok merged →
      (handler w r).outcome = .response
        { status := 200, header := [("Content-Type", ["application/json"])],
          body := [.json merged], complete := !w.writeFails (.json merged) }) ∧
    (∀ s p, fetchJSON w w.secondaryEndpoint = some s → fetchJSON w w.primaryEndpoint = some p →
      deepMergeCall (fetchJSON w w.secondaryEndpoint) (fetchJSON w w.primaryEndpoint)
        = .ok (some (deepMerge s p)) ∧
      ∀ k v, Map.ordered p = true → Map.get? k p = some v →
        v.isObj = false → v.isArr = false → Map.get? k (deepMerge s p) = some v) := by
  refine ⟨?_, ?_, ?_⟩
  · rw [handler_get w r hget]
    split <;> rfl
  · intro merged hm
    rw [handler_get w r hget, hm]
  · intro s p hs hp
    refine ⟨by rw [hs, hp]; rfl, ?_⟩
    intro k v hord hk hobj harr
    rw [get?_deepMerge_present k v p s hord hk]
    cases hg : Map.get? k s with
    | none => cases v <;> rfl
    | some e =>
      cases e <;> cases v <;>
        first
        | rfl
        | (simp [Value.isObj] at hobj; done)
        | simp [Value.isArr] at harr

/-- C6, at a secondary body `null` and a primary document with keys: `fetchJSON`
returns the nil map for the secondary, `deepMerge(nil, primary)` panics at
`dst[key] = val`, and `handler` ends without a response, where the claim has the
primary's document served; with the secondary's body an object the same request
is answered with the JSON text of the merge. -/
theorem handler_get_null_secondary_panics :
    exampleGet.method = "GET" ∧
    (handler (exampleWorld
        (.body (.json (.obj [("a", .num 1), ("b", .obj [("x", .num 1)])])))
        (.body (.json .null)) false none (.error "unused")) exampleGet).outcome
      = .panicked "assignment to entry in nil map" ∧
    (handler (exampleWorld
        (.body (.json (.obj [("a", .num 1), ("b", .obj [("x", .num 1)])])))
        (.body (.json (.obj [("b", .obj [("y", .num 2)]), ("c", .arr [.num 1, .num 2])])))
        false none (.error "unused")) exampleGet).outcome
      = .response
          { status := 200, header := [("Content-Type", ["application/json"])],
            body := [.json (some [("a", .num 1), ("b", .obj [("x", .num 1), ("y", .num 2)]),
              ("c", .arr [.num 1, .num 2])])],
            complete := true } :=
  ⟨rfl, rfl, rfl⟩

/-- C7: the empty object is an identity of the merge on both sides; hence on a
GET where the fetch of one backend fails and the other backend's document is the
object `D`, the response is 200 with the JSON text of `D` as its body. -/
theorem empty_object_is_merge_identity (D : Obj) (hD : Map.ordered D = true) :
    deepMerge D [] = D ∧ deepMerge [] D = D ∧
    ∀ (w : World) (r : Request), r.method = "GET" →
      (fetchFailed w w.primaryEndpoint = true ∧ fetchJSON w w.secondaryEndpoint = some D) ∨
      (fetchFailed w w.secondaryEndpoint = true ∧ fetchJSON w w.primaryEndpoint = some D) →
      ∃ resp, (handler w r).outcome = .response resp ∧
        resp.status = 200 ∧
        resp.header = [("Content-Type", ["application/json"])] ∧
        resp.body = [.json (some D)] ∧
        resp.complete = !w.writeFails (.json (some D)) := by
  have hleft : deepMerge [] D = D := by
    have := deepMerge_append D [] (by simpa using hD)
    simpa using this
  refine ⟨deepMerge_nil D, hleft, ?_⟩
  intro w r hget hside
  have hcall : deepMergeCall (fetchJSON w w.secondaryEndpoint) (fetchJSON w w.primaryEndpoint)
      = .ok (some D) := by
    rcases hside with ⟨hfail, hdoc⟩ | ⟨hfail, hdoc⟩
    · rw [fetchJSON_of_failed w _ hfail, hdoc]
      show Except.ok (some (deepMerge D [])) = _
      rw [deepMerge_nil]
    · rw [fetchJSON_of_failed w _ hfail, hdoc]
      show Except.ok (some (deepMerge [] D)) = _
      rw [hleft]
  refine ⟨{ status := 200, header := [("Content-Type", ["application/json"])],
            body := [.json (some D)], complete := !w.writeFails (.json (some D)) },
    ?_, rfl, rfl, rfl, rfl⟩
  rw [handler_get w r hget, hcall]

theorem empty_object_is_merge_identity_witness :
    ∃ resp, (handler (exampleWorld (.getError "connection refused")
        (.body (.json (.obj [("k", .str "v")]))) false none (.error "unused"))
        exampleGet).outcome = .response resp ∧
      resp.status = 200 ∧
      resp.header = [("Content-Type", ["application/json"])] ∧
      resp.body = [.json (some [("k", .str "v")])] ∧
      resp.complete = true :=
  (empty_object_is_merge_identity [("k", .str "v")] rfl).2.2
    (exampleWorld (.getError "connection refused")
      (.body (.json (.obj [("k", .str "v")]))) false none (.error "unused"))
    exampleGet rfl (Or.inl ⟨rfl, rfl⟩)

/-! ## The write path of `handler` -/

theorem handler_write (w : World) (r : Request) (hm : r.method ≠ "GET") :
    handler w r =
      match w.newRequestError r.method w.secondaryEndpoint with
      | some err =>
        { calls := [], outcome := Outcome.ofWriter (httpError w { header := [], sent := none } err 400) }
      | none =>
        match w.clientDo (proxyRequest w r) with
        | .error err =>
          { calls := [Call.clientDo (proxyRequest w r)],
            outcome := Outcome.ofWriter (httpError w { header := [], sent := none } err 502) }
        | .ok res =>
          match ResponseWriter.writeHeader res.returned.statusCode
              { header := copyHeader [] res.returned.header, sent := none } with
          | .error msg => { calls := [Call.clientDo (proxyRequest w r)], outcome := .panicked msg }
          | .ok rw2 =>
            { calls := [Call.clientDo (proxyRequest w r)],
              outcome := .response
                (ResponseWriter.finish
                  (rw2.write (.raw res.returned.body)
                    (w.writeFails (.raw res.returned.body))).1) } := by
  unfold handler
  rw [if_neg hm]

theorem httpError_first (w : World) (msg : String) (code : Nat)
    (hlo : 100 ≤ code) (hhi : code ≤ 999) :
    Outcome.ofWriter (httpError w { header := [], sent := none } msg code) =
      .response
        { status := code
          header := [("Content-Type", ["text/plain; charset=utf-8"]),
            ("X-Content-Type-Options", ["nosniff"])]
          body := [.line msg]
          complete := !w.writeFails (.line msg) } := by
  have hcode : ¬ (code < 100 ∨ 999 < code) := by omega
  have hh : Header.set "X-Content-Type-Options" "nosniff"
      (Header.set "Content-Type" "text/plain; charset=utf-8" [])
      = [("Content-Type", ["text/plain; charset=utf-8"]),
          ("X-Content-Type-Options", ["nosniff"])] := rfl
  simp only [httpError, ResponseWriter.writeHeader, hh, if_neg hcode, ResponseWriter.write,
    Outcome.ofWriter, ResponseWriter.finish, List.nil_append, if_true]

theorem relay_response (w : World) (resp : Answer)
    (hlo : 100 ≤ resp.statusCode) (hhi : resp.statusCode ≤ 999) :
    (match ResponseWriter.writeHeader resp.statusCode
        { header := copyHeader [] resp.header, sent := none } with
      | .error msg => Outcome.panicked msg
      | .ok rw2 =>
        Outcome.response
          (ResponseWriter.finish
            (rw2.write (.raw resp.body) (w.writeFails (.raw resp.body))).1)) =
      .response
        { status := resp.statusCode
          header := copyHeader [] resp.header
          body := [.raw resp.body]
          complete := !w.writeFails (.raw resp.body) } := by
  have hcode : ¬ (resp.statusCode < 100 ∨ 999 < resp.statusCode) := by omega
  simp only [ResponseWriter.writeHeader, if_neg hcode, ResponseWriter.write,
    ResponseWriter.finish, List.nil_append, if_true]

/-- C10, as the code has it: for a request whose method is not GET, `handler`
makes no fetch and what it does does not depend on the backends' documents; when
building the outbound request fails it calls nothing and answers 400 with the
error text; otherwise it passes the HTTP client one request for the secondary
endpoint, with the method, every header value (in order, per name) and the body
of the inbound request; when the client returns an error it answers 502 with the
error text; when the client returns a response with a status code from 100 to
999, the caller's response has the status code, the header values (in order, per
name) and the body of the response the client returned, which are those of the
secondary endpoint's own response whenever that is the response the client
returned. -/
theorem handler_write_proxies (w : World) (r : Request) (hm : r.method ≠ "GET") :
    (∀ url, Call.get url ∉ (handler w r).calls) ∧
    (∀ (get : String → Fetched), handler { w with get := get } r = handler w r) ∧
    (∀ err, w.newRequestError r.method w.secondaryEndpoint = some err →
      (handler w r).calls = [] ∧
      ∃ out, (handler w r).outcome = .response out ∧
        out.status = 400 ∧ out.body = [.line err]) ∧
    (w.newRequestError r.method w.secondaryEndpoint = none →
      (handler w r).calls = [Call.clientDo (proxyRequest w r)] ∧
      (proxyRequest w r).method = r.method ∧
      (proxyRequest w r).url = w.secondaryEndpoint ∧
      (proxyRequest w r).body = r.body ∧
      (Map.ordered r.header = true →
        ∀ k, Header.values (proxyRequest w r).header k = Header.values r.header k) ∧
      (∀ err, w.clientDo (proxyRequest w r) = .error err →
        ∃ out, (handler w r).outcome = .response out ∧
          out.status = 502 ∧ out.body = [.line err]) ∧
      ∀ res, w.clientDo (proxyRequest w r) = .ok res →
        100 ≤ res.returned.statusCode → res.returned.statusCode ≤ 999 →
        ∃ out, (handler w r).outcome = .response out ∧
          out.status = res.returned.statusCode ∧
          out.body = [.raw res.returned.body] ∧
          out.complete = !w.writeFails (.raw res.returned.body) ∧
          (Map.ordered res.returned.header = true →
            ∀ k, Header.values out.header k = Header.values res.returned.header k) ∧
          (res.returned = res.secondary →
            out.status = res.secondary.statusCode ∧
            out.body = [.raw res.secondary.body] ∧
            (Map.ordered res.secondary.header = true →
              ∀ k, Header.values out.header k = Header.values res.secondary.header k))) := by
  refine ⟨?_, ?_, ?_, ?_⟩
  · intro url
    rw [handler_write w r hm]
    split
    · simp
    · split
      · simp
      · split <;> simp
  · intro get
    rw [handler_write w r hm, handler_write _ r hm]
    rfl
  · intro err herr
    rw [handler_write w r hm, herr]
    refine ⟨rfl, _, httpError_first w err 400 (by omega) (by omega), rfl, rfl⟩
  · intro hreq
    refine ⟨?_, rfl, rfl, rfl, ?_, ?_, ?_⟩
    · rw [handler_write w r hm, hreq]
      dsimp only
      split
      · rfl
      · split <;> rfl
    · intro hord k
      exact values_copyHeader r.header hord k
    · intro err herr
      rw [handler_write w r hm, hreq]
      dsimp only
      rw [herr]
      exact ⟨_, httpError_first w err 502 (by omega) (by omega), rfl, rfl⟩
    · intro res hres hlo hhi
      have hout : (handler w r).outcome = .response
          { status := res.returned.statusCode
            header := copyHeader [] res.returned.header
            body := [.raw res.returned.body]
            complete := !w.writeFails (.raw res.returned.body) } := by
        rw [handler_write w r hm, hreq]
        dsimp only
        rw [hres]
        dsimp only
        rw [← relay_response w res.returned hlo hhi]
        split <;> rfl
      refine ⟨_, hout, rfl, rfl, rfl, ?_, ?_⟩
      · intro hord k
        exact values_copyHeader res.returned.header hord k
      · intro hsame
        rw [← hsame]
        refine ⟨rfl, rfl, ?_⟩
        intro hord k
        exact values_copyHeader res.returned.header hord k

theorem handler_write_proxies_witness :
    (handler (exampleWorld (.getError "unused") (.getError "unused") false none
        (.ok { secondary := exampleAnswer, returned := exampleAnswer })) exampleDelete).calls
      = [Call.clientDo { method := "DELETE", url := "http://secondary",
                         header := [("Accept", ["a/b", "c/d"]), ("X-Token", ["t"])],
                         body := [1, 2, 3] }] ∧
    (handler (exampleWorld (.getError "unused") (.getError "unused") false none
        (.ok { secondary := exampleAnswer, returned := exampleAnswer })) exampleDelete).outcome
      = .response
          { status := 202
            header := [("Set-Cookie", ["a=1", "b=2"]), ("X-Served-By", ["secondary"])]
            body := [.raw [111, 107]]
            complete := true } :=
  ⟨((handler_write_proxies (exampleWorld (.getError "unused") (.getError "unused") false none
      (.ok { secondary := exampleAnswer, returned := exampleAnswer })) exampleDelete
      (by decide)).2.2.2 rfl).1, rfl⟩

/-- C10, as stated, fails in three ways.  When `http.NewRequest` returns an
error, a DELETE request is not forwarded: `handler` calls nothing and answers 400
with the error text.  When the secondary endpoint answers 302 and the client
follows the redirect, the caller's response has the status of the response the
client returned, not the 302 of the secondary endpoint.  When the response the
client returned has status 99, `w.WriteHeader` panics and the caller has no
response. -/
theorem handler_write_counterexample :
    exampleDelete.method ≠ "GET" ∧
    ((handler (exampleWorld (.getError "unused") (.getError "unused") false
        (some "parse http://s/%zz: invalid URL escape")
        (.ok { secondary := exampleAnswer, returned := exampleAnswer })) exampleDelete).calls = [] ∧
      (handler (exampleWorld (.getError "unused") (.getError "unused") false
        (some "parse http://s/%zz: invalid URL escape")
        (.ok { secondary := exampleAnswer, returned := exampleAnswer })) exampleDelete).outcome
        = .response
            { status := 400
              header := [("Content-Type", ["text/plain; charset=utf-8"]),
                ("X-Content-Type-Options", ["nosniff"])]
              body := [.line "parse http://s/%zz: invalid URL escape"]
              complete := true }) ∧
    (∃ out, (handler (exampleWorld (.getError "unused") (.getError "unused") false none
        (.ok { secondary := exampleRedirect, returned := exampleAnswer })) exampleDelete).outcome
        = .response out ∧ out.status = 202 ∧ out.status ≠ exampleRedirect.statusCode) ∧
    (handler (exampleWorld (.getError "unused") (.getError "unused") false none
        (.ok { secondary := exampleLowStatus, returned := exampleLowStatus })) exampleDelete).outcome
      = .panicked "invalid WriteHeader code" :=
  ⟨by decide, ⟨rfl, rfl⟩, ⟨_, rfl, rfl, by decide⟩, rfl⟩

end TraefikMerge
